import Mathlib

set_option maxHeartbeats 1000000

namespace Xflags

/-!
Verification development for the `xflags` command-line parsing library.

The runtime error type (`Error`) is embedded directly from
`crates/xflags/src/lib.rs`.  The grammar model, tokenizer, value coercer
and matcher live in the macro crate, which is not part of the runtime
source tree; those components are modelled from the specification
(definitions below marked `Modelled from the spec:`).
-/

/-- Output channel used by `Error::exit` (stdout for help, stderr otherwise). -/
inductive Channel where
  | stdout
  | stderr
deriving DecidableEq

/-- Observable effect of `Error::exit`: what is printed, where, and the
process exit code. -/
structure ExitOutcome where
  channel : Channel
  printed : String
  code : Nat
deriving DecidableEq

/-- `struct Error { msg: String, help: bool }` from `lib.rs`. -/
structure Error where
  msg : String
  help : Bool

namespace Error

/-- `Error::new`: creates an error from a message; the help flag is false. -/
def new (message : String) : Error := { msg := message, help := false }

/-- `Error::is_help`: whether the error carries a `--help` message. -/
def is_help (e : Error) : Bool := e.help

/-- `impl fmt::Display for Error`: displays exactly the contained message. -/
def display (e : Error) : String := e.msg

/-- `Error::exit`: prints the error and exits the process.  Modelled as the
triple of channel, printed text and exit code. -/
def exit (e : Error) : ExitOutcome :=
  if e.is_help then { channel := Channel.stdout, printed := e.display, code := 0 }
  else { channel := Channel.stderr, printed := e.display, code := 2 }

/-- `Error::chain`: appends to the contained message, keeping the help flag. -/
def chain (e : Error) (m : String) : Error := { msg := e.msg ++ m, help := e.help }

end Error

/-! ## Grammar model (Modelled from the spec: §3 Data Model) -/

/-- Modelled from the spec: arity of a switch or positional. -/
inductive Arity where
  | optional
  | required
  | repeated
deriving DecidableEq

/-- Modelled from the spec: value type tags for the Value Coercer.
`rawPath` (PathBuf) and `rawBytes` (OsString) copy the raw argument
verbatim and never fail; `parsed` delegates to a per-type parse-from-text
capability. -/
inductive TypeTag where
  | rawPath
  | rawBytes
  | parsed (tyName : String) (canParse : String → Bool)

/-- Modelled from the spec: a switch descriptor. -/
structure Switch where
  long : String
  short : Option String
  arity : Arity
  value : Option (String × TypeTag)

/-- Modelled from the spec: a positional descriptor. -/
structure Positional where
  name : String
  arity : Arity
  tag : TypeTag

/-- Modelled from the spec: a command node: name, aliases, positionals,
switches, children, and at most one designated default child (stored
separately from the children because its name is not matchable on the
command line). -/
inductive Cmd where
  | mk (name : String) (aliases : List String) (positionals : List Positional)
      (switches : List Switch) (children : List Cmd) (dflt : Option Cmd)

def Cmd.name : Cmd → String
  | .mk n _ _ _ _ _ => n

def Cmd.aliases : Cmd → List String
  | .mk _ a _ _ _ _ => a

def Cmd.positionals : Cmd → List Positional
  | .mk _ _ p _ _ _ => p

def Cmd.switches : Cmd → List Switch
  | .mk _ _ _ s _ _ => s

def Cmd.children : Cmd → List Cmd
  | .mk _ _ _ _ c _ => c

def Cmd.dflt : Cmd → Option Cmd
  | .mk _ _ _ _ _ d => d

/-- Modelled from the spec: the chain of default children below a node
(followed when input ends before a subcommand was named). -/
def defaultChain : Cmd → List Cmd
  | .mk _ _ _ _ _ (some d) => d :: defaultChain d
  | .mk _ _ _ _ _ none => []

/-- Modelled from the spec: the node reached by following the whole chain of
default children from `c`. -/
def chainEnd (c : Cmd) : Cmd :=
  match (defaultChain c).getLast? with
  | some e => e
  | none => c

/-! ## Tokenizer (Modelled from the spec: §4.2) -/

/-- Modelled from the spec: classified tokens produced by the tokenizer. -/
inductive Token where
  | longSwitch (name : String) (inline : Option String)
  | shortSwitch (name : String)
  | separator
  | bare (text : String)
deriving DecidableEq

/-- Splits a character list at the first `=`, for `--name=value` syntax. -/
def splitEq : List Char → List Char × Option (List Char)
  | [] => ([], none)
  | c :: rest =>
    if c = '=' then ([], some rest)
    else
      let r := splitEq rest
      (c :: r.fst, r.snd)

/-- Modelled from the spec: classification of one raw argument.  `--` is the
separator, `--name` or `--name=value` a long switch, `-x` a short switch,
anything else (including a lone `-`) a bare value. -/
def classify (s : String) : Token :=
  match s.data with
  | '-' :: '-' :: [] => Token.separator
  | '-' :: '-' :: rest =>
    match splitEq rest with
    | (n, some v) => Token.longSwitch (String.mk n) (some (String.mk v))
    | (n, none) => Token.longSwitch (String.mk n) none
  | '-' :: [] => Token.bare s
  | '-' :: rest => Token.shortSwitch (String.mk rest)
  | _ => Token.bare s

/-- Modelled from the spec: tokenize a raw argument list.  After the `--`
separator every remaining argument is forced to `bare`. -/
def tokenize : List String → List Token
  | [] => []
  | a :: rest =>
    if classify a = Token.separator then Token.separator :: rest.map Token.bare
    else classify a :: tokenize rest

/-! ## Errors and outcome (Modelled from the spec: §3, §7) -/

/-- Modelled from the spec: the taxonomy of user-input parse errors. -/
inductive ParseError where
  | unknownSwitch (tok : String)
  | unexpectedArgument (tok : String)
  | missingValue (switchName : String)
  | duplicateSwitch (switchName : String)
  | missingRequired (itemName : String)
  | typeConversionFailure (owner : String) (raw : String) (tyName : String)
  | helpRequested (cmdName : String)
  | subcommandRequired (cmdName : String)
  | unexpectedSwitchValue (switchName : String)
deriving DecidableEq

/-- Modelled from the spec: the result of a successful parse, flattened: the
resolved command path (names, root first), the switch occurrences in token
order (long name, optional value), and the positional values in consumption
order (positional name, raw value). -/
structure Outcome where
  path : List String
  switches : List (String × Option String)
  positionals : List (String × String)
deriving DecidableEq

/-! ## Matcher (Modelled from the spec: §4.4) -/

/-- Matcher state: resolved ancestors with their consumed-positional counts,
the current node and its count, switch occurrences and positional values. -/
structure MState where
  above : List (Cmd × Nat)
  cur : Cmd
  curCnt : Nat
  swAcc : List (String × Option String)
  posAcc : List (String × String)

def pathCmds (st : MState) : List Cmd := (st.above.map Prod.fst) ++ [st.cur]

/-- Switches visible at a path: own plus all inherited, root first. -/
def visibleSwitches (cs : List Cmd) : List Switch := (cs.map Cmd.switches).flatten

def lookupLong (cs : List Cmd) (n : String) : Option Switch :=
  (visibleSwitches cs).find? (fun sw => decide (sw.long = n))

def lookupShort (cs : List Cmd) (n : String) : Option Switch :=
  (visibleSwitches cs).find? (fun sw => decide (sw.short = some n))

def hasOcc (acc : List (String × Option String)) (l : String) : Bool :=
  acc.any (fun o => decide (o.fst = l))

def addOcc (st : MState) (l : String) (v : Option String) : MState :=
  { st with swAcc := st.swAcc ++ [(l, v)] }

def consumePos (st : MState) (n v : String) : MState :=
  { st with curCnt := st.curCnt + 1, posAcc := st.posAcc ++ [(n, v)] }

def descend (st : MState) (ch : Cmd) : MState :=
  { above := st.above ++ [(st.cur, st.curCnt)], cur := ch, curCnt := 0,
    swAcc := st.swAcc, posAcc := st.posAcc }

/-- Modelled from the spec: §4.3 Value Coercer.  Raw tags copy the argument
verbatim and never fail; `parsed` tags surface a `TypeConversionFailure`
naming the offending switch/positional, the raw text and the target type. -/
def coerce (tag : TypeTag) (owner raw : String) : Except ParseError String :=
  match tag with
  | .rawPath => .ok raw
  | .rawBytes => .ok raw
  | .parsed tyName canParse =>
    if canParse raw then .ok raw
    else .error (.typeConversionFailure owner raw tyName)

/-- The positional descriptor the next bare token would fill, given `k`
already consumed at this node: the `k`-th declared positional, or the last
one if it is `repeated`. -/
def nextPosSlot (ps : List Positional) (k : Nat) : Option Positional :=
  match ps.get? k with
  | some p => some p
  | none =>
    match ps.getLast? with
    | some p => if p.arity = Arity.repeated then some p else none
    | none => none

/-- First still-unfilled `required` positional, given `k` consumed. -/
def unmetPositional (ps : List Positional) (k : Nat) : Option Positional :=
  (ps.drop k).find? (fun p => decide (p.arity = Arity.required))

/-- First `required` switch with no recorded occurrence. -/
def unmetSwitch (sws : List Switch) (acc : List (String × Option String)) :
    Option Switch :=
  sws.find? (fun sw => decide (sw.arity = Arity.required) && !(hasOcc acc sw.long))

def nodeUnmet (c : Cmd) (k : Nat) (acc : List (String × Option String)) :
    Option ParseError :=
  match unmetPositional c.positionals k with
  | some p => some (.missingRequired p.name)
  | none =>
    match unmetSwitch c.switches acc with
    | some sw => some (.missingRequired ("--" ++ sw.long))
    | none => none

/-- Modelled from the spec: finalization sweep — for every switch and
positional along the resolved path, verify `Required` arity was satisfied. -/
def firstUnmet (nodes : List (Cmd × Nat)) (acc : List (String × Option String)) :
    Option ParseError :=
  match nodes with
  | [] => none
  | (c, k) :: rest =>
    match nodeUnmet c k acc with
    | some e => some e
    | none => firstUnmet rest acc

def matchesName (c : Cmd) (s : String) : Bool :=
  decide (c.name = s) || c.aliases.any (fun a => decide (a = s))

/-- Exact-match resolution of a bare token against the (non-default)
children of a node.  The default child is stored separately, so its own
name is never matchable here. -/
def findChild (c : Cmd) (s : String) : Option Cmd :=
  c.children.find? (fun ch => matchesName ch s)

/-- Modelled from the spec: end of input (§4.4 step 5).  Default-child
selection is applied repeatedly; if the reached node still has children,
the subcommand is missing; otherwise required arities along the whole
resolved path are verified and the outcome is assembled. -/
def finalize (st : MState) : Except ParseError Outcome :=
  let chain := defaultChain st.cur
  let fullPath := st.above ++ [(st.cur, st.curCnt)] ++ chain.map (fun c => (c, 0))
  match (chainEnd st.cur).children with
  | _ :: _ => .error (.subcommandRequired (chainEnd st.cur).name)
  | [] =>
    match firstUnmet fullPath st.swAcc with
    | some e => .error e
    | none =>
      .ok { path := fullPath.map (fun x => x.fst.name),
            switches := st.swAcc, positionals := st.posAcc }

/-- Modelled from the spec: §4.4 Matcher.  Consumes the classified tokens
one at a time: known switches record occurrences (value from inline text
or the next bare token), bare tokens fill the next positional slot or
resolve a subcommand (with one retry below the default child), `--help` /
`-h` short-circuit, and end of input triggers finalization. -/
def runTokens (st : MState) : List Token → Except ParseError Outcome
  | [] => finalize st
  | Token.separator :: ts => runTokens st ts
  | Token.longSwitch n inl :: ts =>
    if n = "help" then .error (.helpRequested st.cur.name)
    else
      match lookupLong (pathCmds st) n with
      | none => .error (.unknownSwitch ("--" ++ n))
      | some sw =>
        if (!decide (sw.arity = Arity.repeated)) && hasOcc st.swAcc sw.long then
          .error (.duplicateSwitch ("--" ++ n))
        else
          match sw.value, inl with
          | none, none => runTokens (addOcc st sw.long none) ts
          | none, some _ => .error (.unexpectedSwitchValue ("--" ++ n))
          | some (_, tag), some v =>
            match coerce tag ("--" ++ n) v with
            | .error e => .error e
            | .ok v2 => runTokens (addOcc st sw.long (some v2)) ts
          | some (_, tag), none =>
            match ts with
            | Token.bare b :: ts2 =>
              match coerce tag ("--" ++ n) b with
              | .error e => .error e
              | .ok v2 => runTokens (addOcc st sw.long (some v2)) ts2
            | _ => .error (.missingValue ("--" ++ n))
  | Token.shortSwitch n :: ts =>
    if n = "h" then .error (.helpRequested st.cur.name)
    else
      match lookupShort (pathCmds st) n with
      | none => .error (.unknownSwitch ("-" ++ n))
      | some sw =>
        if (!decide (sw.arity = Arity.repeated)) && hasOcc st.swAcc sw.long then
          .error (.duplicateSwitch ("-" ++ n))
        else
          match sw.value with
          | none => runTokens (addOcc st sw.long none) ts
          | some (_, tag) =>
            match ts with
            | Token.bare b :: ts2 =>
              match coerce tag ("-" ++ n) b with
              | .error e => .error e
              | .ok v2 => runTokens (addOcc st sw.long (some v2)) ts2
            | _ => .error (.missingValue ("-" ++ n))
  | Token.bare b :: ts =>
    match nextPosSlot st.cur.positionals st.curCnt with
    | some p =>
      match coerce p.tag p.name b with
      | .error e => .error e
      | .ok v => runTokens (consumePos st p.name v) ts
    | none =>
      match findChild st.cur b with
      | some ch =>
        match unmetPositional st.cur.positionals st.curCnt with
        | some p => .error (.missingRequired p.name)
        | none => runTokens (descend st ch) ts
      | none =>
        match st.cur.dflt with
        | none => .error (.unexpectedArgument b)
        | some d =>
          match nextPosSlot d.positionals 0 with
          | some p =>
            match coerce p.tag p.name b with
            | .error e => .error e
            | .ok v => runTokens (consumePos (descend st d) p.name v) ts
          | none =>
            match findChild d b with
            | some ch => runTokens (descend (descend st d) ch) ts
            | none => .error (.unexpectedArgument b)

/-- Modelled from the spec: a parse is one pass of the matcher over the
tokenized argument list, starting at the grammar root. -/
def parse (g : Cmd) (args : List String) : Except ParseError Outcome :=
  runTokens { above := [], cur := g, curCnt := 0, swAcc := [], posAcc := [] }
    (tokenize args)

/-! ## Concrete example grammars used as witnesses -/

/-- Modelled from the spec: `u32`-style parse-from-text capability (accepts
non-empty strings of decimal digits). -/
def natParses (s : String) : Bool := !s.data.isEmpty && s.data.all Char.isDigit

/-- `cmd app { repeated args: OsString }` — one repeated positional. -/
def sepGrammar : Cmd :=
  Cmd.mk "app" [] [{ name := "args", arity := Arity.repeated, tag := TypeTag.rawBytes }]
    [] [] none

/-- `cmd app { required --pass-me }`. -/
def reqGrammar : Cmd :=
  Cmd.mk "app" [] []
    [{ long := "pass-me", short := none, arity := Arity.required, value := none }]
    [] none

/-- `cmd app { optional -j, --jobs n: u32 }`. -/
def jobsGrammar : Cmd :=
  Cmd.mk "app" [] []
    [{ long := "jobs", short := some "j", arity := Arity.optional,
       value := some ("n", TypeTag.parsed "u32" natParses) }]
    [] none

/-- `cmd foo { optional -s, --switch }`. -/
def fooCmd : Cmd :=
  Cmd.mk "foo" [] []
    [{ long := "switch", short := some "s", arity := Arity.optional, value := none }]
    [] none

/-- `cmd bar {}`. -/
def barCmd : Cmd :=
  Cmd.mk "bar" [] [] [] [] none

/-- `cmd app { repeated -v, --verbose  cmd foo {..}  cmd bar {} }`. -/
def appGrammar : Cmd :=
  Cmd.mk "app" [] []
    [{ long := "verbose", short := some "v", arity := Arity.repeated, value := none }]
    [fooCmd, barCmd] none

/-- `cmd app { repeated -v, --verbose  default cmd foo {..}  cmd bar {} }`. -/
def dfltGrammar : Cmd :=
  Cmd.mk "app" [] []
    [{ long := "verbose", short := some "v", arity := Arity.repeated, value := none }]
    [barCmd] (some fooCmd)

/-- No `required` positional is declared at this node. -/
def noReqPos (c : Cmd) : Bool :=
  c.positionals.all (fun p => !decide (p.arity = Arity.required))

/-- No `required` switch is declared at this node. -/
def noReqSwitch (c : Cmd) : Bool :=
  c.switches.all (fun sw => !decide (sw.arity = Arity.required))

/-- The raw argument `s` is a switch token (long without inline value, or
short), is not the help convention, and resolves at the root `g` to the
switch `sw`. -/
def switchTokenResolves (g : Cmd) (s : String) (sw : Switch) : Prop :=
  (∃ n, classify s = Token.longSwitch n none ∧ n ≠ "help" ∧
    lookupLong [g] n = some sw) ∨
  (∃ n, classify s = Token.shortSwitch n ∧ n ≠ "h" ∧
    lookupShort [g] n = some sw)

/-! ## Helper lemmas -/

theorem find?_append_left {α : Type} (p : α → Bool) {l₁ : List α} (l₂ : List α)
    {a : α} (h : l₁.find? p = some a) : (l₁ ++ l₂).find? p = some a := by
  rw [List.find?_append, h]; rfl

theorem find?_none_of_all_neg {α : Type} {p : α → Bool} {l : List α}
    (h : l.all (fun x => !p x) = true) : l.find? p = none := by
  rw [List.find?_eq_none]
  intro x hx hpx
  have := (List.all_eq_true.mp h) x hx
  simp [hpx] at this

theorem unmetPositional_of_slot_none {ps : List Positional} {k : Nat}
    (h : nextPosSlot ps k = none) : unmetPositional ps k = none := by
  have hk : ps.get? k = none := by
    unfold nextPosSlot at h
    rcases hg : ps.get? k with _ | p
    · rfl
    · rw [hg] at h; exact absurd h (by simp)
  have hlen : ps.length ≤ k := List.get?_eq_none.mp hk
  unfold unmetPositional
  rw [List.drop_eq_nil_of_le hlen]
  rfl

theorem defaultChain_some {c d : Cmd} (h : c.dflt = some d) :
    defaultChain c = d :: defaultChain d := by
  rcases c with ⟨n, a, p, s, ch, dd⟩
  cases dd with
  | none => exact absurd h (by simp [Cmd.dflt])
  | some d0 =>
    have : d0 = d := by simpa [Cmd.dflt] using h
    subst this
    rfl

theorem defaultChain_none {c : Cmd} (h : c.dflt = none) : defaultChain c = [] := by
  rcases c with ⟨n, a, p, s, ch, dd⟩
  cases dd with
  | none => rfl
  | some d0 => exact absurd h (by simp [Cmd.dflt])

theorem unmetSwitch_nil (sws : List Switch) :
    unmetSwitch sws [] =
      sws.find? (fun sw => decide (sw.arity = Arity.required)) := by
  unfold unmetSwitch
  congr 1
  funext sw
  simp [hasOcc]

theorem unmetSwitch_none_of_noReq {c : Cmd} (h : noReqSwitch c = true)
    (acc : List (String × Option String)) : unmetSwitch c.switches acc = none := by
  unfold unmetSwitch
  rw [List.find?_eq_none]
  intro sw hsw
  have := (List.all_eq_true.mp h) sw hsw
  rcases hb : decide (sw.arity = Arity.required) with _ | _
  · simp [hb]
  · simp [hb] at this

theorem unmetPositional_zero_none {c : Cmd} (h : noReqPos c = true) :
    unmetPositional c.positionals 0 = none := by
  unfold unmetPositional
  rw [List.drop_zero]
  exact find?_none_of_all_neg h

theorem find?_eq_head?_filter {α : Type} (p : α → Bool) (l : List α) :
    l.find? p = (l.filter p).head? := by
  induction l with
  | nil => rfl
  | cons x xs ih =>
    by_cases hp : p x
    · rw [List.find?_cons_of_pos _ hp, List.filter_cons_of_pos hp, List.head?_cons]
    · rw [List.find?_cons_of_neg _ hp, List.filter_cons_of_neg hp, ih]

theorem firstUnmet_eq_find (nodes : List (Cmd × Nat))
    (hpos : ∀ x ∈ nodes, unmetPositional x.fst.positionals x.snd = none) :
    firstUnmet nodes [] =
      ((nodes.map (fun x => x.fst.switches)).flatten.find?
          (fun sw => decide (sw.arity = Arity.required))).map
        (fun sw => ParseError.missingRequired ("--" ++ sw.long)) := by
  induction nodes with
  | nil => rfl
  | cons x rest ih =>
    rcases x with ⟨c, k⟩
    have h1 : unmetPositional c.positionals k = none := hpos (c, k) (by simp)
    rw [List.map_cons, List.flatten_cons, List.find?_append]
    cases hf : c.switches.find? (fun sw => decide (sw.arity = Arity.required)) with
    | some sw =>
      simp [firstUnmet, nodeUnmet, h1, unmetSwitch_nil, hf]
    | none =>
      simp only [firstUnmet, nodeUnmet, h1, unmetSwitch_nil, hf, Option.none_or]
      exact ih (fun y hy => hpos y (by simp [hy]))

theorem lookupLong_cons_child {g ch : Cmd} {n : String} {sw : Switch}
    (h : lookupLong [g] n = some sw) : lookupLong [g, ch] n = some sw := by
  unfold lookupLong visibleSwitches at h ⊢
  simp only [List.map_cons, List.map_nil, List.flatten_cons, List.flatten_nil,
    List.append_nil] at h ⊢
  rw [List.find?_append, h]
  rfl

theorem lookupShort_cons_child {g ch : Cmd} {n : String} {sw : Switch}
    (h : lookupShort [g] n = some sw) : lookupShort [g, ch] n = some sw := by
  unfold lookupShort visibleSwitches at h ⊢
  simp only [List.map_cons, List.map_nil, List.flatten_cons, List.flatten_nil,
    List.append_nil] at h ⊢
  rw [List.find?_append, h]
  rfl

theorem runTokens_nil (st : MState) : runTokens st [] = finalize st := rfl

theorem switch_step_long (st : MState) (ts : List Token) {n : String} {sw : Switch}
    (hn : ¬(n = "help")) (hlk : lookupLong (pathCmds st) n = some sw)
    (hocc : hasOcc st.swAcc sw.long = false) (hval : sw.value = none) :
    runTokens st (Token.longSwitch n none :: ts) =
      runTokens (addOcc st sw.long none) ts := by
  simp only [runTokens, if_neg hn, hlk, hocc, hval, Bool.and_false]
  rfl

theorem switch_step_short (st : MState) (ts : List Token) {n : String} {sw : Switch}
    (hn : ¬(n = "h")) (hlk : lookupShort (pathCmds st) n = some sw)
    (hocc : hasOcc st.swAcc sw.long = false) (hval : sw.value = none) :
    runTokens st (Token.shortSwitch n :: ts) =
      runTokens (addOcc st sw.long none) ts := by
  simp only [runTokens, if_neg hn, hlk, hocc, hval, Bool.and_false]
  rfl

theorem bare_step_slot (st : MState) (b : String) (ts : List Token) {p : Positional}
    (hslot : nextPosSlot st.cur.positionals st.curCnt = some p) :
    runTokens st (Token.bare b :: ts) =
      match coerce p.tag p.name b with
      | .error e => .error e
      | .ok v => runTokens (consumePos st p.name v) ts := by
  simp only [runTokens, hslot]

theorem bare_step_child (st : MState) (b : String) (ts : List Token) {ch : Cmd}
    (hslot : nextPosSlot st.cur.positionals st.curCnt = none)
    (hfc : findChild st.cur b = some ch) :
    runTokens st (Token.bare b :: ts) = runTokens (descend st ch) ts := by
  simp only [runTokens, hslot, hfc, unmetPositional_of_slot_none hslot]

/-- Core commutation argument: a token `T` that (in any reachable state with
empty switch accumulator along the resolved path) just records an occurrence
of `sw` commutes with a bare token `c` that names the child `ch`. -/
theorem order_indep_core (g ch : Cmd) (sw : Switch) (c : String) (T : Token)
    (hch : findChild g c = some ch)
    (hstep : ∀ (st : MState) (ts : List Token),
      (pathCmds st = [g] ∨ pathCmds st = [g, ch]) → st.swAcc = [] →
      runTokens st (T :: ts) = runTokens (addOcc st sw.long none) ts) :
    runTokens { above := [], cur := g, curCnt := 0, swAcc := [], posAcc := [] }
      [T, Token.bare c] =
    runTokens { above := [], cur := g, curCnt := 0, swAcc := [], posAcc := [] }
      [Token.bare c, T] := by
  cases hslot : nextPosSlot g.positionals 0 with
  | none =>
    rw [hstep { above := [], cur := g, curCnt := 0, swAcc := [], posAcc := [] }
      [Token.bare c] (Or.inl rfl) rfl]
    rw [bare_step_child
      (addOcc { above := [], cur := g, curCnt := 0, swAcc := [], posAcc := [] }
        sw.long none) c [] hslot hch]
    rw [bare_step_child
      { above := [], cur := g, curCnt := 0, swAcc := [], posAcc := [] }
      c [T] hslot hch]
    rw [hstep (descend
      { above := [], cur := g, curCnt := 0, swAcc := [], posAcc := [] } ch)
      [] (Or.inr rfl) rfl]
    rfl
  | some p =>
    rw [hstep { above := [], cur := g, curCnt := 0, swAcc := [], posAcc := [] }
      [Token.bare c] (Or.inl rfl) rfl]
    rw [bare_step_slot
      (addOcc { above := [], cur := g, curCnt := 0, swAcc := [], posAcc := [] }
        sw.long none) c [] hslot]
    rw [bare_step_slot
      { above := [], cur := g, curCnt := 0, swAcc := [], posAcc := [] }
      c [T] hslot]
    cases hco : coerce p.tag p.name c with
    | error e => simp only [hco]
    | ok v =>
      simp only [hco]
      rw [hstep (consumePos
        { above := [], cur := g, curCnt := 0, swAcc := [], posAcc := [] } p.name v)
        [] (Or.inl rfl) rfl]
      rfl

/-! ## Claim theorems -/

/-- C1: `Error::exit` prints the error's message and terminates with exit
code 0 when the error is a help request and 2 otherwise; 0 and 2 are the
only possible exit codes. -/
theorem error_exit_code_convention (e : Error) :
    e.exit.printed = e.msg ∧
    e.exit.code = (if e.is_help then 0 else 2) ∧
    (e.exit.code = 0 ∨ e.exit.code = 2) := by
  rcases e with ⟨m, h⟩
  cases h <;> simp [Error.exit, Error.display, Error.is_help]

/-- C2: every failure or help request is one `Error` value carrying a
message and a boolean help flag, and `is_help` returns true exactly when
the value was flagged as a help request. -/
theorem error_carries_msg_and_help_flag (m : String) (h : Bool) :
    (Error.mk m h).msg = m ∧ (Error.mk m h).help = h ∧
    ((Error.mk m h).is_help = true ↔ h = true) := by
  simp [Error.is_help]

/-- C8: `Error::new` sets the help flag to false, so a custom validation
error never takes the help branch of `exit` and always exits with code 2. -/
theorem error_new_not_help (m : String) :
    (Error.new m).is_help = false ∧
    (Error.new m).exit.code = 2 ∧ (Error.new m).exit.code ≠ 0 := by
  simp [Error.new, Error.is_help, Error.exit]

/-- C9: `Error::chain` appends to the message and leaves the help flag
unchanged; chaining never flips between failure and help request. -/
theorem error_chain_preserves_help (e : Error) (s : String) :
    (e.chain s).msg = e.msg ++ s ∧ (e.chain s).help = e.help ∧
    (e.chain s).is_help = e.is_help := by
  simp [Error.chain, Error.is_help]

/-- C10: displaying an `Error` yields exactly the contained message; the
help flag has no effect, so equal messages display identically. -/
theorem error_display_msg_only :
    (∀ e : Error, e.display = e.msg) ∧
    (∀ e₁ e₂ : Error, e₁.msg = e₂.msg → e₁.display = e₂.display) :=
  ⟨fun _ => rfl, fun e₁ e₂ h => by simp [Error.display, h]⟩

/-- Witness for C10 at concrete errors with different help flags. -/
theorem error_display_msg_only_witness :
    (Error.mk "oops" true).display = (Error.mk "oops" false).display :=
  error_display_msg_only.2 (Error.mk "oops" true) (Error.mk "oops" false) rfl

/-- C7: the Value Coercer copies the raw argument verbatim and never fails
on the raw-path/raw-bytes tags; on any other tag it fails exactly when the
per-type parse capability fails, naming the owner, the raw text and the
target type.  Concretely, `--jobs abc` with a `u32` value fails naming
`--jobs` and `"abc"`. -/
theorem coerce_raw_verbatim_parsed_failure (owner raw tyName : String)
    (canParse : String → Bool) :
    coerce TypeTag.rawPath owner raw = .ok raw ∧
    coerce TypeTag.rawBytes owner raw = .ok raw ∧
    (coerce (TypeTag.parsed tyName canParse) owner raw =
      if canParse raw then .ok raw
      else .error (.typeConversionFailure owner raw tyName)) ∧
    (coerce (TypeTag.parsed tyName canParse) owner raw =
        .error (.typeConversionFailure owner raw tyName) ↔ canParse raw = false) ∧
    parse jobsGrammar ["--jobs", "abc"] =
      .error (.typeConversionFailure "--jobs" "abc" "u32") := by
  refine ⟨rfl, rfl, rfl, ?_, rfl⟩
  cases h : canParse raw <;> simp [coerce, h]

/-- C4: after the tokenizer emits the separator token, every later token is
bare regardless of leading dashes; concretely, a repeated positional
receives the dash-prefixed values following `--` with no switch error. -/
theorem separator_forces_bare :
    (∀ (args : List String) (l₁ l₂ : List Token),
        tokenize args = l₁ ++ Token.separator :: l₂ →
        ∀ t ∈ l₂, ∃ s, t = Token.bare s) ∧
    parse sepGrammar ["--", "-x", "--flag"] =
      .ok { path := ["app"], switches := [],
            positionals := [("args", "-x"), ("args", "--flag")] } := by
  refine ⟨?_, rfl⟩
  intro args
  induction args with
  | nil =>
    intro l₁ l₂ h
    simp only [tokenize] at h
    exact absurd h.symm (by simp)
  | cons a rest ih =>
    intro l₁ l₂ h t ht
    simp only [tokenize] at h
    by_cases hc : classify a = Token.separator
    · rw [if_pos hc] at h
      rcases l₁ with _ | ⟨x, xs⟩
      · rw [List.nil_append] at h
        injection h with h1 h2
        rw [← h2] at ht
        rcases List.mem_map.mp ht with ⟨s, _, hs⟩
        exact ⟨s, hs.symm⟩
      · rw [List.cons_append] at h
        injection h with h1 h2
        have hmem : Token.separator ∈ rest.map Token.bare := by
          rw [h2]; simp
        rcases List.mem_map.mp hmem with ⟨s, _, hs⟩
        exact absurd hs (by simp)
    · rw [if_neg hc] at h
      rcases l₁ with _ | ⟨x, xs⟩
      · rw [List.nil_append] at h
        injection h with h1 h2
        exact absurd h1 hc
      · rw [List.cons_append] at h
        injection h with h1 h2
        exact ih xs l₂ h2 t ht

/-- Witness for C4 at a concrete argument list. -/
theorem separator_forces_bare_witness : ∃ s, Token.bare "-x" = Token.bare s :=
  separator_forces_bare.1 ["--", "-x"] [] [Token.bare "-x"] rfl (Token.bare "-x")
    (by simp)

/-- C5: end of input is handled by the finalization sweep, and for every
grammar whose resolved path contains exactly one `Required` switch and no
required positionals (and needs no subcommand), parsing the empty argument
list yields `MissingRequired` naming that switch. -/
theorem missing_required_at_finalize :
    (∀ st : MState, runTokens st [] = finalize st) ∧
    ∀ (g : Cmd) (s : Switch),
      (chainEnd g).children = [] →
      ((g :: defaultChain g).all noReqPos = true) →
      (((g :: defaultChain g).map Cmd.switches).flatten.filter
          (fun sw => decide (sw.arity = Arity.required)) = [s]) →
      parse g [] = .error (.missingRequired ("--" ++ s.long)) := by
  refine ⟨fun st => rfl, ?_⟩
  intro g s hend hpos hsw
  have hall := List.all_eq_true.mp hpos
  have hpos' : ∀ x ∈ ((g, (0 : Nat)) :: (defaultChain g).map (fun c => (c, (0 : Nat)))),
      unmetPositional x.fst.positionals x.snd = none := by
    intro x hx
    rcases List.mem_cons.mp hx with h | h
    · subst h; exact unmetPositional_zero_none (hall g (by simp))
    · rcases List.mem_map.mp h with ⟨c, hc, rfl⟩
      exact unmetPositional_zero_none (hall c (by simp [hc]))
  have h0 : parse g [] =
      finalize { above := [], cur := g, curCnt := 0, swAcc := [], posAcc := [] } := rfl
  rw [h0]
  simp only [finalize, List.nil_append, List.singleton_append, hend]
  rw [firstUnmet_eq_find _ hpos']
  rw [List.map_cons, List.map_map]
  have hcomp : ((fun x : Cmd × Nat => x.fst.switches) ∘ fun c => (c, (0 : Nat))) =
      Cmd.switches := by
    funext c; rfl
  rw [hcomp]
  have hflat : (Cmd.switches g :: (defaultChain g).map Cmd.switches).flatten =
      ((g :: defaultChain g).map Cmd.switches).flatten := by
    rw [List.map_cons]
  rw [hflat, find?_eq_head?_filter, hsw]
  rfl

/-- Witness for C5 at the grammar `cmd app { required --pass-me }`. -/
theorem missing_required_at_finalize_witness :
    parse reqGrammar [] = .error (.missingRequired "--pass-me") :=
  missing_required_at_finalize.2 reqGrammar
    { long := "pass-me", short := none, arity := Arity.required, value := none }
    rfl rfl rfl

/-- C6: a root with a designated default child resolves to it on an empty
argument list with empty switch and positional occurrences; an argument
naming a non-default sibling resolves to that sibling; and the default
child's own name is never matchable on the command line. -/
theorem default_child_selection :
    (∀ (g d : Cmd),
      g.dflt = some d → d.dflt = none → d.children = [] →
      noReqPos g = true → noReqSwitch g = true →
      noReqPos d = true → noReqSwitch d = true →
      parse g [] =
        .ok { path := [g.name, d.name], switches := [], positionals := [] }) ∧
    (∀ (g sib : Cmd) (b : String),
      (∃ d, g.dflt = some d) →
      g.positionals = [] →
      classify b = Token.bare b →
      findChild g b = some sib →
      sib.dflt = none → sib.children = [] →
      noReqSwitch g = true → noReqPos sib = true → noReqSwitch sib = true →
      parse g [b] =
        .ok { path := [g.name, sib.name], switches := [], positionals := [] }) ∧
    (∀ (g d : Cmd),
      g.dflt = some d →
      g.positionals = [] → d.positionals = [] →
      classify d.name = Token.bare d.name →
      findChild g d.name = none → findChild d d.name = none →
      parse g [d.name] = .error (.unexpectedArgument d.name)) := by
  refine ⟨?_, ?_, ?_⟩
  · intro g d hgd hdd hdc hgp hgs hdp hds
    have hchain : defaultChain g = [d] := by
      rw [defaultChain_some hgd, defaultChain_none hdd]
    have hce : chainEnd g = d := by
      unfold chainEnd; rw [hchain]; rfl
    have h0 : parse g [] =
        finalize { above := [], cur := g, curCnt := 0, swAcc := [], posAcc := [] } := rfl
    rw [h0]
    simp only [finalize, hce, hdc, hchain, List.nil_append, List.singleton_append,
      List.map_cons, List.map_nil, firstUnmet, nodeUnmet,
      unmetPositional_zero_none hgp, unmetPositional_zero_none hdp,
      unmetSwitch_none_of_noReq hgs, unmetSwitch_none_of_noReq hds]
  · intro g sib b _ hgp hb hfc hsd hsc hgs hsp hss
    have ht : tokenize [b] = [Token.bare b] := by
      simp only [tokenize]
      rw [hb]
      simp
    have h0 : parse g [b] =
        runTokens { above := [], cur := g, curCnt := 0, swAcc := [], posAcc := [] }
          (tokenize [b]) := rfl
    rw [h0, ht]
    have hslot : nextPosSlot g.positionals 0 = none := by rw [hgp]; rfl
    rw [bare_step_child _ _ _ hslot hfc, runTokens_nil]
    have hchain : defaultChain sib = [] := defaultChain_none hsd
    have hce : chainEnd sib = sib := by
      unfold chainEnd; rw [hchain]; rfl
    have hup : unmetPositional g.positionals 0 = none := by rw [hgp]; rfl
    simp only [finalize, descend, hce, hsc, hchain, List.map_nil, List.append_nil,
      List.singleton_append, List.cons_append, List.nil_append, List.map_cons,
      firstUnmet, nodeUnmet, hup, unmetPositional_zero_none hsp,
      unmetSwitch_none_of_noReq hgs, unmetSwitch_none_of_noReq hss]
  · intro g d hgd hgp hdp hb hnc hnd
    have ht : tokenize [d.name] = [Token.bare d.name] := by
      simp only [tokenize]
      rw [hb]
      simp
    have h0 : parse g [d.name] =
        runTokens { above := [], cur := g, curCnt := 0, swAcc := [], posAcc := [] }
          (tokenize [d.name]) := rfl
    rw [h0, ht]
    have hslot : nextPosSlot g.positionals 0 = none := by rw [hgp]; rfl
    have hslotd : nextPosSlot d.positionals 0 = none := by rw [hdp]; rfl
    simp only [runTokens, hslot, hnc, hgd, hslotd, hnd]

/-- C3: order independence of inherited switches — for any grammar with a
switch visible at the root (long or short, no value to consume, not the
help convention) and a bare token naming a child command, parsing
`[switch, child-name]` and `[child-name, switch]` produce identical
results. -/
theorem inherited_switch_order_independent (g ch : Cmd) (sw : Switch) (s c : String)
    (hs : switchTokenResolves g s sw)
    (hval : sw.value = none)
    (hc : classify c = Token.bare c)
    (hch : findChild g c = some ch) :
    parse g [s, c] = parse g [c, s] := by
  have hinit : ∀ args, parse g args =
      runTokens { above := [], cur := g, curCnt := 0, swAcc := [], posAcc := [] }
        (tokenize args) := fun _ => rfl
  rcases hs with ⟨n, hcls, hn, hlk⟩ | ⟨n, hcls, hn, hlk⟩
  · have ht1 : tokenize [s, c] = [Token.longSwitch n none, Token.bare c] := by
      simp [tokenize, hcls, hc]
    have ht2 : tokenize [c, s] = [Token.bare c, Token.longSwitch n none] := by
      simp [tokenize, hcls, hc]
    rw [hinit, hinit, ht1, ht2]
    refine order_indep_core g ch sw c (Token.longSwitch n none) hch ?_
    intro st ts hpath hacc
    refine switch_step_long st ts hn ?_ ?_ hval
    · rcases hpath with hp | hp
      · rw [hp]; exact hlk
      · rw [hp]; exact lookupLong_cons_child hlk
    · rw [hacc]; rfl
  · have ht1 : tokenize [s, c] = [Token.shortSwitch n, Token.bare c] := by
      simp [tokenize, hcls, hc]
    have ht2 : tokenize [c, s] = [Token.bare c, Token.shortSwitch n] := by
      simp [tokenize, hcls, hc]
    rw [hinit, hinit, ht1, ht2]
    refine order_indep_core g ch sw c (Token.shortSwitch n) hch ?_
    intro st ts hpath hacc
    refine switch_step_short st ts hn ?_ ?_ hval
    · rcases hpath with hp | hp
      · rw [hp]; exact hlk
      · rw [hp]; exact lookupShort_cons_child hlk
    · rw [hacc]; rfl

/-- Witness for C3 at `app -v foo` versus `app foo -v`. -/
theorem inherited_switch_order_independent_witness :
    parse appGrammar ["-v", "foo"] = parse appGrammar ["foo", "-v"] :=
  inherited_switch_order_independent appGrammar fooCmd
    { long := "verbose", short := some "v", arity := Arity.repeated, value := none }
    "-v" "foo" (Or.inr ⟨"v", rfl, by decide, rfl⟩) rfl rfl rfl

/-- Witness for C6 at `cmd app { default cmd foo {..} cmd bar {} }`. -/
theorem default_child_selection_witness :
    parse dfltGrammar [] =
      .ok { path := ["app", "foo"], switches := [], positionals := [] } ∧
    parse dfltGrammar ["bar"] =
      .ok { path := ["app", "bar"], switches := [], positionals := [] } ∧
    parse dfltGrammar ["foo"] = .error (.unexpectedArgument "foo") :=
  ⟨default_child_selection.1 dfltGrammar fooCmd rfl rfl rfl rfl rfl rfl rfl,
   default_child_selection.2.1 dfltGrammar barCmd "bar" ⟨fooCmd, rfl⟩ rfl rfl rfl
     rfl rfl rfl rfl rfl,
   default_child_selection.2.2 dfltGrammar fooCmd rfl rfl rfl rfl rfl rfl⟩

end Xflags
